import Mathlib

/-!
Verification of the go-astiencoder core against its specification.

The development shallowly embeds the Go sources:

* `src/libav/frame.go` — the frame dispatcher (`frameDispatcher.dispatch`),
  the frame pool (`framePool.get` / `framePool.put`), the muxer
  (`Muxer.Start`, `MuxerPktHandler.pktHandlerPayloadRetriever`);
* `src/unnamed/part_000` — the forwarder (`Forwarder.HandleFrame`), the
  demuxer (`Demuxer.readFrame`, `Demuxer.emulateRatePktDuration`);
* `src/workflow_pool.go` — the workflow pool.

Pure code becomes Lean functions; the concurrent dispatcher becomes a
small-step transition relation on an explicit configuration type.  Native
library entry points (av_rescale_q, av_packet_rescale_ts) are modelled
from their documented integer semantics; their return codes are inputs of
the embedded functions.
-/

/-! ## Rational rescaling (native avutil helpers used by the sources)

`avRescaleRnd a b c` models FFmpeg's av_rescale_rnd with rounding
AV_ROUND_NEAR_INF (round to nearest, ties away from zero), the rounding
used by av_rescale_q and hence by AvRescaleQ / AvPacketRescaleTs in the
Go bindings.  All uses in this development have nonnegative numerators
inside each branch, so every integer-division convention agrees. -/

structure AVRational where
  num : Int
  den : Int
deriving DecidableEq, Repr

def avRescaleRnd (a b c : Int) : Int :=
  if a < 0 then -(((-a) * b + c / 2) / c) else (a * b + c / 2) / c

def avRescaleQ (a : Int) (bq cq : AVRational) : Int :=
  avRescaleRnd a (bq.num * cq.den) (cq.num * bq.den)

/-- AV_NOPTS_VALUE, the int64 sentinel for an unset timestamp. -/
def AV_NOPTS_VALUE : Int := -9223372036854775808

/-! ## Packets and the muxer packet handler (src/libav/frame.go 337-366) -/

structure Packet where
  pts : Int
  dts : Int
  duration : Int
  streamIndex : Int
deriving DecidableEq, Repr

/-- Native av_packet_rescale_ts: rescale pts and dts (when set) and a
positive duration from time base `src` to time base `dst`. -/
def avPacketRescaleTs (p : Packet) (src dst : AVRational) : Packet :=
  { p with
    pts := if p.pts = AV_NOPTS_VALUE then p.pts else avRescaleQ p.pts src dst
    dts := if p.dts = AV_NOPTS_VALUE then p.dts else avRescaleQ p.dts src dst
    duration := if 0 < p.duration then avRescaleQ p.duration src dst else p.duration }

/-- The payload handed to a packet handler: the packet plus the time base
of its source descriptor (`p.Descriptor.TimeBase()`). -/
structure PktHandlerPayload where
  pkt : Packet
  descTimeBase : AVRational
deriving DecidableEq, Repr

/-- Body of the thunk returned by
`MuxerPktHandler.pktHandlerPayloadRetriever` (frame.go lines 357-366),
run at dequeue time: rescale the packet timestamps from the descriptor
time base to the captured target stream's time base (`h.o.TimeBase()`)
and set the packet's stream index to the target stream's index
(`h.o.Index()`). -/
def pktHandlerPayloadRetrieve (streamTimeBase : AVRational) (streamIndex : Int)
    (p : PktHandlerPayload) : PktHandlerPayload :=
  { p with
    pkt := { avPacketRescaleTs p.pkt p.descTimeBase streamTimeBase with
             streamIndex := streamIndex } }

/-! ## Demuxer rate emulation (src/unnamed/part_000 lines 459-474) -/

inductive CodecType where
  | audio
  | video
  | other
deriving DecidableEq, Repr

/-- The part of `Context` read by `emulateRatePktDuration`. -/
structure DemuxCtx where
  codecType : CodecType
  sampleRate : Int
  timeBase : AVRational
deriving DecidableEq, Repr

/-- The part of a read packet used by rate emulation; `skipSideData` is
the AV_PKT_DATA_SKIP_SAMPLES side data, decoded as the two little-endian
32-bit words (skip-start samples, skip-end samples), `none` when the
packet carries no such side data. -/
structure RatePkt where
  duration : Int
  skipSideData : Option (Nat × Nat)
deriving DecidableEq, Repr

/-- Go expression `int64(float64(skipStart+skipEnd)/float64(ctx.SampleRate)*1e9)`
from part_000 line 470.  The float64 arithmetic is modelled exactly over
the rationals; Go's float-to-int conversion truncates toward zero, which
for the nonnegative values occurring here is integer division. -/
def skipNs (skipTotal : Nat) (sampleRate : Int) : Int :=
  (skipTotal : Int) * 1000000000 / sampleRate

def nanosecondRational : AVRational := ⟨1, 1000000000⟩

/-- `Demuxer.emulateRatePktDuration` (part_000 lines 459-474): for audio
packets carrying skip-samples side data, subtract from the packet
duration the duration of the skipped samples converted to the stream
time base; otherwise return the packet duration unchanged. -/
def emulateRatePktDuration (pkt : RatePkt) (ctx : DemuxCtx) : Int :=
  match ctx.codecType with
  | CodecType.audio =>
    match pkt.skipSideData with
    | none => pkt.duration
    | some sd =>
      pkt.duration - avRescaleQ (skipNs (sd.1 + sd.2) ctx.sampleRate) nanosecondRational ctx.timeBase
  | _ => pkt.duration

/-- The nanosecond pacing step added to `emulateRateNextAt` in
`Demuxer.readFrame` (part_000 line 451):
AvRescaleQ(emulateRatePktDuration(pkt, ctx), streamTimeBase, nanosecondRational). -/
def emulateRateSleepNs (pkt : RatePkt) (ctx : DemuxCtx) (streamTimeBase : AVRational) : Int :=
  avRescaleQ (emulateRatePktDuration pkt ctx) streamTimeBase nanosecondRational

/-! ## Demuxer read loop (src/unnamed/part_000 lines 367-457) -/

/-- AVERROR_EOF = FFERRTAG('E','O','F',' '). -/
def AVERROR_EOF : Int := -541478725

def AVSEEK_FLAG_BACKWARD : Int := 1

/-- The fields of a read packet that `readFrame` inspects, and that
`newDemuxerPkt` records into `loopFirstPkt` (stream index taken from the
matching `avformat.Stream`). -/
structure DemuxPkt where
  streamIndex : Int
  dts : Int
  duration : Int
deriving DecidableEq, Repr

structure SeekCall where
  streamIndex : Int
  ts : Int
  flags : Int
deriving DecidableEq, Repr

/-- Observable outcome of one `Demuxer.readFrame` call. -/
structure ReadFrameResult where
  stop : Bool
  errorsEmitted : Nat
  seek : Option SeekCall
  dispatched : Option DemuxPkt
  loopFirstPkt : Option DemuxPkt
  poolGets : Nat
  poolPuts : Nat
deriving DecidableEq, Repr

/-- `Demuxer.readFrame` (part_000 lines 398-457).  Inputs stand for the
environment of one call: `readRet` is the native AvReadFrame return,
`pkt` the packet it filled (meaningful when `readRet` is nonnegative),
`loop` and `lfp` the demuxer's loop flag and stored first-packet record,
`knownStream` whether `pkt.streamIndex` is in the stream table `d.ss`,
`restamper` the optional restamper, `seekRet` the native AvSeekFrame
return were a seek performed.  The packet is taken from the pool on
entry and returned by a defer on every path (poolGets/poolPuts).  The
rate-emulation block only sleeps and is modelled separately by
`emulateRateSleepNs`. -/
def readFrame (readRet : Int) (pkt : DemuxPkt) (loop : Bool) (lfp : Option DemuxPkt)
    (knownStream : Bool) (restamper : Option (DemuxPkt → DemuxPkt)) (seekRet : Int) :
    ReadFrameResult :=
  let base : ReadFrameResult :=
    { stop := false, errorsEmitted := 0, seek := none, dispatched := none
      loopFirstPkt := lfp, poolGets := 1, poolPuts := 1 }
  if readRet < 0 then
    if readRet ≠ AVERROR_EOF ∨ loop = false then
      { base with
        errorsEmitted := if readRet ≠ AVERROR_EOF then 1 else 0
        stop := true }
    else
      match lfp with
      | some fp =>
        if seekRet < 0 then
          { base with
            seek := some ⟨fp.streamIndex, fp.dts, AVSEEK_FLAG_BACKWARD⟩
            errorsEmitted := 1, stop := true }
        else
          { base with seek := some ⟨fp.streamIndex, fp.dts, AVSEEK_FLAG_BACKWARD⟩ }
      | none => base
  else
    if knownStream = false then base
    else
      let pkt' := match restamper with
        | some r => r pkt
        | none => pkt
      let lfp' := if loop = true ∧ lfp = none then some pkt' else lfp
      { base with dispatched := some pkt', loopFirstPkt := lfp' }

inductive LoopOutcome where
  | stopped
  | looping
deriving DecidableEq, Repr

/-- One turn of the for-loop in `Demuxer.Start` (part_000 lines 380-394):
return when `readFrame` said stop, otherwise handle pause and return
when the node context is cancelled. -/
def demuxerLoopIter (stop : Bool) (ctxErr : Bool) : LoopOutcome :=
  if stop then LoopOutcome.stopped
  else if ctxErr then LoopOutcome.stopped
  else LoopOutcome.looping

/-- Whether the demuxer read loop is still running after `n` turns in
which every native read returns end-of-input, loop mode is on, no
first-packet record exists, and the context stays alive. -/
def stillLooping (pkt : DemuxPkt) (knownStream : Bool)
    (restamper : Option (DemuxPkt → DemuxPkt)) (seekRet : Int) : Nat → Bool
  | 0 => true
  | Nat.succ n =>
    stillLooping pkt knownStream restamper seekRet n &&
      !(readFrame AVERROR_EOF pkt true none knownStream restamper seekRet).stop

/-! ## Muxer start body (src/libav/frame.go lines 284-335) -/

structure MuxerRunState where
  onceDone : Bool
  headerWrites : Nat
  trailerHooks : Nat
  errors : Nat
deriving DecidableEq, Repr

def initMuxer : MuxerRunState := ⟨false, 0, 0, 0⟩

/-- One execution of the `Muxer.Start` body (frame.go lines 286-334) up
to starting the queue.  `headerRet` is the native AvformatWriteHeader
return the one time it runs.  `var ret int` starts at 0, so on runs
after the first the once-guard leaves `ret = 0` and the body registers a
further trailer close-hook via `m.c.Add`. -/
def muxerStartBody (headerRet : Int) (s : MuxerRunState) : MuxerRunState :=
  if s.onceDone then
    { s with trailerHooks := s.trailerHooks + 1 }
  else
    if headerRet < 0 then
      { s with onceDone := true, headerWrites := s.headerWrites + 1, errors := s.errors + 1 }
    else
      { s with onceDone := true, headerWrites := s.headerWrites + 1
               trailerHooks := s.trailerHooks + 1 }

/-- State after the `Muxer.Start` body has run `n` times on one muxer
instance.  The closer runs every registered close-hook exactly once at
teardown, so `trailerHooks` counts the trailer writes at teardown. -/
def muxerRuns (headerRet : Int) : Nat → MuxerRunState
  | 0 => initMuxer
  | Nat.succ n => muxerStartBody headerRet (muxerRuns headerRet n)

/-- Claim C4 as stated: over K starts of the same muxer, exactly one
header write, a failing header write makes the first run emit an error,
and exactly one trailer write at teardown. -/
def muxerHeaderTrailerOnceClaim : Prop :=
  ∀ (headerRet : Int) (K : Nat), 1 ≤ K →
    (muxerRuns headerRet K).headerWrites = 1 ∧
    (headerRet < 0 → (muxerRuns headerRet 1).errors = 1) ∧
    (muxerRuns headerRet K).trailerHooks = 1

/-! ## Muxer queue consumer (src/libav/frame.go lines 310-333) -/

structure MuxerWriteLog where
  written : List Nat
  errors : Nat
  stopped : Bool
deriving DecidableEq, Repr

/-- The closure passed to `m.q.Start` in `Muxer.Start`, run once per
dequeued payload.  An item is a packet id paired with the native
AvInterleavedWriteFrame return for it: a negative return emits the error
and returns from the closure, skipping only that packet; nothing on this
path stops the node. -/
def muxerQueueItem (log : MuxerWriteLog) (item : Nat × Int) : MuxerWriteLog :=
  if item.2 < 0 then { log with errors := log.errors + 1 }
  else { log with written := log.written ++ [item.1] }

/-- The queue consumer over a whole run: the CtxQueue drains every
submitted item in order (astisync.CtxQueue, external to src). -/
def muxerConsume (items : List (Nat × Int)) : MuxerWriteLog :=
  items.foldl muxerQueueItem ⟨[], 0, false⟩

/-! ## Pool discipline of the fan-out paths (frame.go 91-110, part_000 142-172)

`PoolLedger` counts, along one code path, the `get` calls made on a
frame pool and the `put` calls that path ever performs for them
(including deferred puts in spawned tasks). -/

structure PoolLedger where
  gets : Nat
  puts : Nat
deriving DecidableEq, Repr

/-- Pool traffic of the per-handler loop of `frameDispatcher.dispatch`
(frame.go lines 91-110) for one dispatched frame: each entry of `refOks`
is one handler's AvFrameRef success.  On success the spawned goroutine
defers `d.p.put(hF)`; on failure the code emits the error, calls
`d.wg.Done()` and continues — no put for the frame obtained at line 93. -/
def dispatchPoolOps (refOks : List Bool) : PoolLedger :=
  refOks.foldl
    (fun acc ok => { gets := acc.gets + 1, puts := acc.puts + (if ok then 1 else 0) })
    ⟨0, 0⟩

/-- Pool traffic of `Forwarder.HandleFrame` (part_000 lines 142-172):
one get at line 147; the put is deferred inside the chan task added at
line 154, which is only reached when AvFrameRef succeeds — the failure
path returns at line 150 without a put. -/
def forwarderHandleFramePool (refOk : Bool) : PoolLedger :=
  { gets := 1, puts := if refOk then 1 else 0 }

/-- Pool traffic of `Demuxer.readFrame` (part_000 lines 400-401): one
get with a deferred put covering every exit path. -/
def readFramePoolOps : PoolLedger := ⟨1, 1⟩

/-! ## Workflow pool (src/workflow_pool.go) -/

structure Workflow where
  name : String
  wid : Nat
deriving DecidableEq, Repr

inductive PoolErr where
  | workflowNotFound
deriving DecidableEq, Repr

/-- The map `WorkflowPool.ws : map[string]*Workflow`, as a function. -/
def emptyWorkflowPool : String → Option Workflow := fun _ => none

/-- `WorkflowPool.AddWorkflow` (workflow_pool.go lines 32-36):
`wp.ws[w.name] = w`. -/
def addWorkflow (wp : String → Option Workflow) (w : Workflow) : String → Option Workflow :=
  fun n => if n = w.name then some w else wp n

/-- `WorkflowPool.Workflow` (workflow_pool.go lines 39-48): look the name
up; missing names yield ErrWorkflowNotFound. -/
def workflowGet (wp : String → Option Workflow) (name : String) : Except PoolErr Workflow :=
  match wp name with
  | some w => Except.ok w
  | none => Except.error PoolErr.workflowNotFound

/-! ## Frame dispatcher (src/libav/frame.go lines 30-115)

`frameDispatcher.dispatch` runs on the producer's task: it snapshots the
handler table, returns at once if the snapshot is empty, waits on the
WaitGroup for all tasks of earlier dispatches, adds `len(hs)` to the
WaitGroup, and then for each handler either spawns a goroutine carrying
a fresh pooled copy of the frame (AvFrameRef succeeded) or emits the
error and calls `wg.Done()` (AvFrameRef failed).  Each goroutine calls
`HandleFrame`, puts its copy back and calls `wg.Done()`.

The embedding is a small-step relation.  Handlers and buffers are
numbered by naturals; the registered handler set `hs` is fixed for the
run (the snapshot of every dispatch), and `refOk b h` tells whether the
native AvFrameRef of buffer `b` for handler `h` succeeds.  A
configuration carries the producer's control point, the WaitGroup
counter, the spawned-but-unfinished tasks, the per-handler sequence of
handled buffers, and the fan-out order of buffers. -/

inductive ProdState where
  | idle (rest : List Nat)
  | waiting (b : Nat) (rest : List Nat)
  | spawning (b : Nat) (hsRem : List Nat) (rest : List Nat)
deriving DecidableEq, Repr

structure DispCfg where
  prod : ProdState
  wg : Nat
  running : List (Nat × Nat)
  recv : Nat → List Nat
  log : List Nat

/-- Handlers the producer still has to process inside the current
dispatch call. -/
def pendingCount : ProdState → Nat
  | ProdState.spawning _ hsRem _ => hsRem.length
  | _ => 0

def updRecv (recv : Nat → List Nat) (h b : Nat) : Nat → List Nat :=
  fun h' => if h' = h then recv h' ++ [b] else recv h'

/-- Small-step semantics of `frameDispatcher.dispatch` interleaved with
the completion of its spawned handler goroutines. -/
inductive Step (hs : List Nat) (refOk : Nat → Nat → Bool) : DispCfg → DispCfg → Prop where
  | dispatchEmpty (b : Nat) (rest : List Nat) (wg : Nat) (running : List (Nat × Nat))
      (recv : Nat → List Nat) (log : List Nat) :
      hs = [] →
      Step hs refOk ⟨ProdState.idle (b :: rest), wg, running, recv, log⟩
        ⟨ProdState.idle rest, wg, running, recv, log⟩
  | dispatchBegin (b : Nat) (rest : List Nat) (wg : Nat) (running : List (Nat × Nat))
      (recv : Nat → List Nat) (log : List Nat) :
      hs ≠ [] →
      Step hs refOk ⟨ProdState.idle (b :: rest), wg, running, recv, log⟩
        ⟨ProdState.waiting b rest, wg, running, recv, log⟩
  | barrier (b : Nat) (rest : List Nat) (running : List (Nat × Nat))
      (recv : Nat → List Nat) (log : List Nat) :
      Step hs refOk ⟨ProdState.waiting b rest, 0, running, recv, log⟩
        ⟨ProdState.spawning b hs rest, hs.length, running, recv, log ++ [b]⟩
  | spawnOk (b h : Nat) (hsRem : List Nat) (rest : List Nat) (wg : Nat)
      (running : List (Nat × Nat)) (recv : Nat → List Nat) (log : List Nat) :
      refOk b h = true →
      Step hs refOk ⟨ProdState.spawning b (h :: hsRem) rest, wg, running, recv, log⟩
        ⟨ProdState.spawning b hsRem rest, wg, (h, b) :: running, recv, log⟩
  | spawnFail (b h : Nat) (hsRem : List Nat) (rest : List Nat) (wg : Nat)
      (running : List (Nat × Nat)) (recv : Nat → List Nat) (log : List Nat) :
      refOk b h = false →
      Step hs refOk ⟨ProdState.spawning b (h :: hsRem) rest, wg, running, recv, log⟩
        ⟨ProdState.spawning b hsRem rest, wg - 1, running, recv, log⟩
  | dispatchReturn (b : Nat) (rest : List Nat) (wg : Nat) (running : List (Nat × Nat))
      (recv : Nat → List Nat) (log : List Nat) :
      Step hs refOk ⟨ProdState.spawning b [] rest, wg, running, recv, log⟩
        ⟨ProdState.idle rest, wg, running, recv, log⟩
  | complete (h b : Nat) (prod : ProdState) (wg : Nat) (running : List (Nat × Nat))
      (recv : Nat → List Nat) (log : List Nat) :
      (h, b) ∈ running →
      Step hs refOk ⟨prod, wg, running, recv, log⟩
        ⟨prod, wg - 1, running.erase (h, b), updRecv recv h b, log⟩

/-- Initial configuration: the producer will dispatch the buffers `bs`
in order; nothing spawned, nothing received. -/
def initCfg (bs : List Nat) : DispCfg := ⟨ProdState.idle bs, 0, [], fun _ => [], []⟩

def DispReach (hs : List Nat) (refOk : Nat → Nat → Bool) : DispCfg → DispCfg → Prop :=
  Relation.ReflTransGen (Step hs refOk)

/-- WaitGroup accounting: the counter equals the number of unfinished
spawned tasks plus the handlers of the current dispatch not yet
processed by the producer loop. -/
def invWg (cfg : DispCfg) : Prop :=
  cfg.wg = cfg.running.length + pendingCount cfg.prod

theorem invWg_init (bs : List Nat) : invWg (initCfg bs) := rfl

theorem invWg_step {hs : List Nat} {refOk : Nat → Nat → Bool} {c c' : DispCfg}
    (hstep : Step hs refOk c c') (hinv : invWg c) : invWg c' := by
  cases hstep with
  | dispatchEmpty b rest wg running recv log h => exact hinv
  | dispatchBegin b rest wg running recv log h => exact hinv
  | barrier b rest running recv log =>
    simp only [invWg, pendingCount] at hinv ⊢
    omega
  | spawnOk b h hsRem rest wg running recv log hok =>
    simp only [invWg, pendingCount, List.length_cons] at hinv ⊢
    omega
  | spawnFail b h hsRem rest wg running recv log hfail =>
    simp only [invWg, pendingCount, List.length_cons] at hinv ⊢
    omega
  | dispatchReturn b rest wg running recv log =>
    simp only [invWg, pendingCount, List.length_nil] at hinv ⊢
    omega
  | complete h b prod wg running recv log hmem =>
    have hlen : (running.erase (h, b)).length = running.length - 1 :=
      List.length_erase_of_mem hmem
    have hpos : 1 ≤ running.length := List.length_pos.mpr (List.ne_nil_of_mem hmem)
    simp only [invWg] at hinv ⊢
    rw [hlen]
    omega

theorem invWg_reach {hs : List Nat} {refOk : Nat → Nat → Bool} {bs : List Nat} {c : DispCfg}
    (hr : DispReach hs refOk (initCfg bs) c) : invWg c := by
  induction hr with
  | refl => exact invWg_init bs
  | tail hab hbc ih => exact invWg_step hbc ih

def noTask (running : List (Nat × Nat)) (h : Nat) : Prop :=
  ∀ x, (h, x) ∉ running

/-- Well-formedness of the unfinished tasks: every unfinished task
belongs to a registered handler, carries the most recently fanned-out
buffer, its handler has received exactly the earlier buffers, and no
handler has two unfinished tasks. -/
def runWF (hs : List Nat) (running : List (Nat × Nat)) (recv : Nat → List Nat)
    (log : List Nat) : Prop :=
  (∀ p ∈ running, p.1 ∈ hs ∧ ∃ f, log = f ++ [p.2] ∧ recv p.1 = f) ∧
  (running.map Prod.fst).Nodup

/-- Producer-position invariant: in the middle of a fan-out the not yet
processed handlers have received all earlier buffers, and the processed
ones either still run on the current buffer or have received it;
between dispatches every handler lags the fan-out order by at most its
one unfinished task. -/
def prodClause (hs : List Nat) (prod : ProdState) (running : List (Nat × Nat))
    (recv : Nat → List Nat) (log : List Nat) : Prop :=
  match prod with
  | ProdState.spawning b hsRem _ =>
    (∃ pre, hs = pre ++ hsRem) ∧
    ∃ f, log = f ++ [b] ∧
      (∀ h ∈ hsRem, recv h = f ∧ noTask running h) ∧
      (∀ h ∈ hs, h ∉ hsRem → (h, b) ∈ running ∨ recv h = log)
  | _ => ∀ h ∈ hs, recv h = log ∨ ∃ f x, log = f ++ [x] ∧ recv h = f ∧ (h, x) ∈ running

def invOrder (hs : List Nat) : DispCfg → Prop
  | ⟨prod, _, running, recv, log⟩ =>
    runWF hs running recv log ∧ prodClause hs prod running recv log

theorem invOrder_init (hs bs : List Nat) : invOrder hs (initCfg bs) := by
  refine ⟨⟨?_, ?_⟩, ?_⟩
  · intro p hp
    exact absurd hp (List.not_mem_nil p)
  · simp [initCfg]
  · intro h hh
    exact Or.inl rfl

theorem invOrder_step {hs : List Nat} {refOk : Nat → Nat → Bool} {c c' : DispCfg}
    (hnd : hs.Nodup) (hok : ∀ b h, refOk b h = true)
    (hstep : Step hs refOk c c') (hwg : invWg c) (hinv : invOrder hs c) :
    invOrder hs c' := by
  cases hstep with
  | dispatchEmpty b rest wg running recv log hemp => exact hinv
  | dispatchBegin b rest wg running recv log hne => exact hinv
  | barrier b rest running recv log =>
    have hrun0 : running = [] := by
      simp only [invWg, pendingCount] at hwg
      exact List.length_eq_zero.mp (by omega)
    subst hrun0
    obtain ⟨⟨hrun, hndf⟩, hcl⟩ := hinv
    refine ⟨⟨?_, ?_⟩, ⟨[], (List.nil_append hs).symm⟩, log, rfl, ?_, ?_⟩
    · intro p hp
      exact absurd hp (List.not_mem_nil p)
    · simp
    · intro h hh
      refine ⟨?_, fun x hx => absurd hx (List.not_mem_nil _)⟩
      rcases hcl h hh with h1 | ⟨f, x, _, _, hmem⟩
      · exact h1
      · exact absurd hmem (List.not_mem_nil _)
    · intro h hh hnot
      exact absurd hh hnot
  | spawnOk b h₀ hsRem rest wg running recv log hok0 =>
    obtain ⟨⟨hrun, hndf⟩, ⟨pre, hsplit⟩, f, hlogf, hpend, hproc⟩ := hinv
    have h0hs : h₀ ∈ hs := by rw [hsplit]; simp
    have hcons : (h₀ :: hsRem).Nodup := by
      have h' := hnd
      rw [hsplit] at h'
      exact h'.of_append_right
    have h0not : h₀ ∉ hsRem := (List.nodup_cons.mp hcons).1
    obtain ⟨hrecv0, hnt0⟩ := hpend h₀ (List.mem_cons_self _ _)
    refine ⟨⟨?_, ?_⟩, ⟨pre ++ [h₀], by rw [hsplit]; simp⟩, f, hlogf, ?_, ?_⟩
    · intro p hp
      rcases List.mem_cons.mp hp with rfl | hp'
      · exact ⟨h0hs, f, hlogf, hrecv0⟩
      · exact hrun p hp'
    · simp only [List.map_cons]
      refine List.nodup_cons.mpr ⟨?_, hndf⟩
      intro hmem
      obtain ⟨p, hp, hfst⟩ := List.mem_map.mp hmem
      refine hnt0 p.2 ?_
      have hp2 : p = (h₀, p.2) := by
        obtain ⟨p1, p2⟩ := p
        simp only at hfst
        simp [hfst]
      rwa [hp2] at hp
    · intro h hh
      obtain ⟨hr, hnt⟩ := hpend h (List.mem_cons_of_mem _ hh)
      refine ⟨hr, ?_⟩
      intro x hx
      rcases List.mem_cons.mp hx with heq | hx'
      · have hhh : h = h₀ := by
          have := congrArg Prod.fst heq
          simpa using this
        exact h0not (hhh ▸ hh)
      · exact hnt x hx'
    · intro h hh hnot
      by_cases heq : h = h₀
      · subst heq
        exact Or.inl (List.mem_cons_self _ _)
      · have hnc : h ∉ h₀ :: hsRem := by
          intro hc
          rcases List.mem_cons.mp hc with h1 | h1
          · exact heq h1
          · exact hnot h1
        rcases hproc h hh hnc with h1 | h1
        · exact Or.inl (List.mem_cons_of_mem _ h1)
        · exact Or.inr h1
  | spawnFail b h₀ hsRem rest wg running recv log hfail =>
    exact absurd (hok b h₀) (by simp [hfail])
  | dispatchReturn b rest wg running recv log =>
    obtain ⟨⟨hrun, hndf⟩, ⟨pre, hsplit⟩, f, hlogf, hpend, hproc⟩ := hinv
    refine ⟨⟨hrun, hndf⟩, ?_⟩
    intro h hh
    rcases hproc h hh (List.not_mem_nil h) with h1 | h1
    · obtain ⟨_, g, hlogg, hrecvg⟩ := hrun (h, b) h1
      exact Or.inr ⟨g, b, hlogg, hrecvg, h1⟩
    · exact Or.inl h1
  | complete h₁ x prod wg running recv log hmem =>
    obtain ⟨⟨hrun, hndf⟩, hcl⟩ := hinv
    obtain ⟨h1hs, f, hlogf0, hrecvf0⟩ := hrun (h₁, x) hmem
    have hlogf : log = f ++ [x] := hlogf0
    have hrecvf : recv h₁ = f := hrecvf0
    have hrn : running.Nodup := hndf.of_map
    have hinj := List.inj_on_of_nodup_map hndf
    have hfst_ne : ∀ p ∈ running.erase (h₁, x), p.1 ≠ h₁ := by
      intro p hp hpeq
      have hne := (hrn.mem_erase_iff.mp hp).1
      have hp' := (hrn.mem_erase_iff.mp hp).2
      exact hne (hinj hp' hmem hpeq)
    have hrecv_log : updRecv recv h₁ x h₁ = log := by
      simp [updRecv, hrecvf, hlogf]
    have hrecv_other : ∀ h, h ≠ h₁ → updRecv recv h₁ x h = recv h := by
      intro h hne
      simp [updRecv, hne]
    refine ⟨⟨?_, ?_⟩, ?_⟩
    · intro p hp
      obtain ⟨hmem_hs, g, hlogg, hrecvg⟩ := hrun p (List.mem_of_mem_erase hp)
      exact ⟨hmem_hs, g, hlogg, by rw [hrecv_other p.1 (hfst_ne p hp)]; exact hrecvg⟩
    · exact hndf.sublist ((List.erase_sublist _ _).map Prod.fst)
    · cases prod with
      | idle rest =>
        intro h hh
        by_cases heq : h = h₁
        · subst heq
          exact Or.inl hrecv_log
        · rcases hcl h hh with h1 | ⟨g, y, hlogg, hrecvg, hmemg⟩
          · exact Or.inl (by rw [hrecv_other h heq]; exact h1)
          · refine Or.inr ⟨g, y, hlogg, by rw [hrecv_other h heq]; exact hrecvg, ?_⟩
            have hne2 : (h, y) ≠ (h₁, x) := by
              intro hc
              exact heq (congrArg Prod.fst hc)
            exact (List.mem_erase_of_ne hne2).mpr hmemg
      | waiting b rest =>
        intro h hh
        by_cases heq : h = h₁
        · subst heq
          exact Or.inl hrecv_log
        · rcases hcl h hh with h1 | ⟨g, y, hlogg, hrecvg, hmemg⟩
          · exact Or.inl (by rw [hrecv_other h heq]; exact h1)
          · refine Or.inr ⟨g, y, hlogg, by rw [hrecv_other h heq]; exact hrecvg, ?_⟩
            have hne2 : (h, y) ≠ (h₁, x) := by
              intro hc
              exact heq (congrArg Prod.fst hc)
            exact (List.mem_erase_of_ne hne2).mpr hmemg
      | spawning b hsRem rest =>
        obtain ⟨⟨pre, hsplit⟩, g, hlogg, hpend, hproc⟩ := hcl
        have hfg : f = g ∧ x = b := by
          have hcat : f ++ [x] = g ++ [b] := hlogf.symm.trans hlogg
          have hinj2 := List.append_inj' hcat rfl
          exact ⟨hinj2.1, by simpa using hinj2.2⟩
        obtain ⟨rfl, rfl⟩ := hfg
        refine ⟨⟨pre, hsplit⟩, f, hlogg, ?_, ?_⟩
        · intro h hh
          obtain ⟨hrv, hnt⟩ := hpend h hh
          have hne : h ≠ h₁ := by
            intro hc
            subst hc
            exact hnt x hmem
          exact ⟨by rw [hrecv_other h hne]; exact hrv,
            fun y hy => hnt y (List.mem_of_mem_erase hy)⟩
        · intro h hh hnot
          by_cases heq : h = h₁
          · subst heq
            exact Or.inr hrecv_log
          · rcases hproc h hh hnot with h1 | h1
            · refine Or.inl ?_
              have hne2 : (h, x) ≠ (h₁, x) := by
                intro hc
                exact heq (congrArg Prod.fst hc)
              exact (List.mem_erase_of_ne hne2).mpr h1
            · exact Or.inr (by rw [hrecv_other h heq]; exact h1)

theorem invOrder_reach {hs : List Nat} {refOk : Nat → Nat → Bool} {bs : List Nat} {c : DispCfg}
    (hnd : hs.Nodup) (hok : ∀ b h, refOk b h = true)
    (hr : DispReach hs refOk (initCfg bs) c) : invOrder hs c := by
  induction hr with
  | refl => exact invOrder_init hs bs
  | tail hab hbc ih => exact invOrder_step hnd hok hbc (invWg_reach hab) ih

/-! ## Example run of the dispatcher

One handler (0), every AvFrameRef succeeds, one buffer (0).  `exCfg` is
the configuration at the point where `dispatch` returns: the handler
task has been spawned but has not yet run. -/

def exOk : Nat → Nat → Bool := fun _ _ => true

def exCfg : DispCfg :=
  ⟨ProdState.spawning 0 [] [], 1, [(0, 0)], fun _ => [], [0]⟩

theorem exReach : DispReach [0] exOk (initCfg [0]) exCfg := by
  have s1 : Step [0] exOk (initCfg [0]) ⟨ProdState.waiting 0 [], 0, [], fun _ => [], []⟩ :=
    Step.dispatchBegin 0 [] 0 [] (fun _ => []) [] (by simp)
  have s2 : Step [0] exOk ⟨ProdState.waiting 0 [], 0, [], fun _ => [], []⟩
      ⟨ProdState.spawning 0 [0] [], 1, [], fun _ => [], [0]⟩ :=
    Step.barrier 0 [] [] (fun _ => []) []
  have s3 : Step [0] exOk ⟨ProdState.spawning 0 [0] [], 1, [], fun _ => [], [0]⟩ exCfg :=
    Step.spawnOk 0 0 [] [] 1 [] (fun _ => []) [0] rfl
  exact Relation.ReflTransGen.tail
    (Relation.ReflTransGen.tail (Relation.ReflTransGen.single s1) s2) s3

/-- Claim C1 as stated: `dispatch` is synchronous — at the point where it
returns (producer at the end of the fan-out loop, about to leave the
call) every handler of the snapshot has already been invoked with its
copy of the buffer and that handling has completed. -/
def dispatchSyncClaim (hs : List Nat) (refOk : Nat → Nat → Bool) (bs : List Nat) : Prop :=
  ∀ c : DispCfg, DispReach hs refOk (initCfg bs) c →
    ∀ b rest, c.prod = ProdState.spawning b [] rest →
      ∀ h ∈ hs, b ∈ c.recv h

/-- Claim C1 (corrected), counterexample: with one registered handler and
a successful copy, the dispatcher reaches the return point of
`dispatch(0)` with the handler's task spawned but not yet completed —
the handler has received nothing, so dispatch does not return only
after the handling of this buffer has completed. -/
theorem frameDispatcher_dispatch_sync_counterexample :
    ¬ dispatchSyncClaim [0] exOk [0] := by
  intro hcl
  have h0 := hcl exCfg exReach 0 [] rfl 0 (by simp)
  simp [exCfg] at h0

/-- Claim C1 (amended): when `dispatch` returns with a non-empty handler
snapshot, one handling task per snapshot handler has been spawned for
this buffer with its own pooled copy (some may already have completed);
the handling itself finishes asynchronously, only before the next
dispatch begins fan-out.  With an empty snapshot `dispatch` returns
immediately, changing nothing. -/
theorem frameDispatcher_dispatch_amended (hs : List Nat) (refOk : Nat → Nat → Bool)
    (bs : List Nat) (hnd : hs.Nodup) (hok : ∀ b h, refOk b h = true) (c : DispCfg)
    (hr : DispReach hs refOk (initCfg bs) c) :
    (∀ b rest, c.prod = ProdState.spawning b [] rest →
      ∀ h ∈ hs, (h, b) ∈ c.running ∨ b ∈ c.recv h) ∧
    (∀ b rest wg running recv log, hs = [] →
      Step hs refOk ⟨ProdState.idle (b :: rest), wg, running, recv, log⟩
        ⟨ProdState.idle rest, wg, running, recv, log⟩) := by
  constructor
  · intro b rest hc h hh
    obtain ⟨cprod, cwg, crunning, crecv, clog⟩ := c
    obtain ⟨⟨hrun, hndf⟩, hcl⟩ := invOrder_reach hnd hok hr
    simp only at hc
    rw [hc] at hcl
    obtain ⟨⟨pre, hsplit⟩, f, hlogf, hpend, hproc⟩ := hcl
    rcases hproc h hh (List.not_mem_nil h) with h1 | h1
    · exact Or.inl h1
    · refine Or.inr ?_
      show b ∈ crecv h
      have h1' : crecv h = clog := h1
      rw [h1', hlogf]
      simp
  · intro b rest wg running recv log hemp
    exact Step.dispatchEmpty b rest wg running recv log hemp

/-- Claim C1 (amended), witness: in the example run, at the return point
of `dispatch(0)` the task of handler 0 for buffer 0 has been spawned or
has completed. -/
theorem frameDispatcher_dispatch_amended_witness :
    (0, 0) ∈ exCfg.running ∨ 0 ∈ exCfg.recv 0 :=
  (frameDispatcher_dispatch_amended [0] exOk [0] (by decide) (fun _ _ => rfl)
    exCfg exReach).1 0 [] rfl 0 (by simp)

/-- Claim C2: the fan-out of a buffer (the barrier transition from the
wait into copying and spawning) happens only when no handler task of
any earlier dispatch is still unfinished; consequently, with the
handler set registered for the whole run and every native copy
succeeding, every handler's received sequence extends to the dispatcher
fan-out order — it is an initial segment of it, in producer order. -/
theorem frameDispatcher_order (hs : List Nat) (refOk : Nat → Nat → Bool) (bs : List Nat)
    (hnd : hs.Nodup) (hok : ∀ b h, refOk b h = true) (c : DispCfg)
    (hr : DispReach hs refOk (initCfg bs) c) :
    (∀ c' b rest b' hsR rest', Step hs refOk c c' →
      c.prod = ProdState.waiting b rest → c'.prod = ProdState.spawning b' hsR rest' →
      c.running = []) ∧
    (∀ h ∈ hs, ∃ t, c.log = c.recv h ++ t) := by
  constructor
  · intro c' b rest b' hsR rest' hstep hpw hps
    have hwg := invWg_reach hr
    cases hstep with
    | dispatchEmpty b0 rest0 wg0 running0 recv0 log0 h0 => simp at hpw
    | dispatchBegin b0 rest0 wg0 running0 recv0 log0 h0 => simp at hpw
    | barrier b0 rest0 running0 recv0 log0 =>
      simp only [invWg, pendingCount] at hwg
      show running0 = []
      exact List.length_eq_zero.mp (by omega)
    | spawnOk b0 h0 hsRem0 rest0 wg0 running0 recv0 log0 hok0 => simp at hpw
    | spawnFail b0 h0 hsRem0 rest0 wg0 running0 recv0 log0 hf0 => simp at hpw
    | dispatchReturn b0 rest0 wg0 running0 recv0 log0 => simp at hpw
    | complete h1 x prod0 wg0 running0 recv0 log0 hmem =>
      simp only at hpw hps
      rw [hpw] at hps
      simp at hps
  · intro h hh
    obtain ⟨cprod, cwg, crunning, crecv, clog⟩ := c
    obtain ⟨⟨hrun, hndf⟩, hcl⟩ := invOrder_reach hnd hok hr
    show ∃ t, clog = crecv h ++ t
    cases cprod with
    | idle rest =>
      rcases hcl h hh with h1 | ⟨f, x, hlog, hrecv, _⟩
      · exact ⟨[], by rw [h1, List.append_nil]⟩
      · exact ⟨[x], by rw [hlog, hrecv]⟩
    | waiting b rest =>
      rcases hcl h hh with h1 | ⟨f, x, hlog, hrecv, _⟩
      · exact ⟨[], by rw [h1, List.append_nil]⟩
      · exact ⟨[x], by rw [hlog, hrecv]⟩
    | spawning b hsRem rest =>
      obtain ⟨⟨pre, hsplit⟩, f, hlogf, hpend, hproc⟩ := hcl
      by_cases hin : h ∈ hsRem
      · obtain ⟨hrv, _⟩ := hpend h hin
        exact ⟨[b], by rw [hlogf, hrv]⟩
      · rcases hproc h hh hin with h1 | h1
        · obtain ⟨_, g, hlogg, hrecvg⟩ := hrun (h, b) h1
          exact ⟨[b], by rw [show clog = g ++ [b] from hlogg, show crecv h = g from hrecvg]⟩
        · exact ⟨[], by rw [show crecv h = clog from h1, List.append_nil]⟩

/-- Claim C2, witness: in the example run, at the return point of
`dispatch(0)` handler 0's received sequence is an initial segment of the
fan-out order [0]. -/
theorem frameDispatcher_order_witness :
    ∃ t, exCfg.log = exCfg.recv 0 ++ t :=
  (frameDispatcher_order [0] exOk [0] (by decide) (fun _ _ => rfl) exCfg exReach).2 0 (by simp)

theorem dispatchPoolOps_go (acc : PoolLedger) (l : List Bool) :
    l.foldl (fun a ok => ⟨a.gets + 1, a.puts + (if ok then 1 else 0)⟩) acc =
      ⟨acc.gets + l.length, acc.puts + l.count true⟩ := by
  induction l generalizing acc with
  | nil => simp
  | cons b t ih =>
    cases b <;>
      simp [List.foldl_cons, ih, List.count_cons, PoolLedger.mk.injEq] <;> omega

/-- Claim C3 (code_bug): a dispatch `get` is matched by an eventual `put`
only for the handlers whose AvFrameRef succeeds — on the failure path of
`frameDispatcher.dispatch` (frame.go lines 94-98) and of
`Forwarder.HandleFrame` (part_000 lines 148-151) the pooled frame is
never returned to the pool, contradicting the claimed discipline; the
demuxer's `readFrame` path is balanced. -/
theorem framePool_get_without_put :
    (∀ refOks : List Bool, (dispatchPoolOps refOks).gets = refOks.length ∧
      (dispatchPoolOps refOks).puts = refOks.count true) ∧
    dispatchPoolOps [false] = ⟨1, 0⟩ ∧
    forwarderHandleFramePool false = ⟨1, 0⟩ ∧
    readFramePoolOps = ⟨1, 1⟩ := by
  refine ⟨?_, by decide, by decide, by decide⟩
  intro refOks
  have h := dispatchPoolOps_go ⟨0, 0⟩ refOks
  constructor <;> simp [dispatchPoolOps, h]

/-- Claim C4 (corrected), counterexample: after two successful runs of
the `Muxer.Start` body on the same instance, two trailer close-hooks
are registered, so teardown writes the trailer twice, not once. -/
theorem muxer_header_trailer_counterexample : ¬ muxerHeaderTrailerOnceClaim := by
  intro h
  have h2 := (h 0 2 (by norm_num)).2.2
  have hv : (muxerRuns 0 2).trailerHooks = 2 := by decide
  rw [hv] at h2
  exact absurd h2 (by decide)

theorem muxerRuns_spec (r : Int) : ∀ n, 1 ≤ n →
    (muxerRuns r n).onceDone = true ∧ (muxerRuns r n).headerWrites = 1 ∧
    (0 ≤ r → (muxerRuns r n).trailerHooks = n) := by
  intro n
  induction n with
  | zero => intro h; exact absurd h (by norm_num)
  | succ m ih =>
    intro _
    by_cases hm : 1 ≤ m
    · obtain ⟨ho, hh, ht⟩ := ih hm
      refine ⟨?_, ?_, ?_⟩
      · simp [muxerRuns, muxerStartBody, ho]
      · simp [muxerRuns, muxerStartBody, ho, hh]
      · intro hr
        simp [muxerRuns, muxerStartBody, ho, ht hr]
    · have hm0 : m = 0 := by omega
      subst hm0
      by_cases hr : r < 0
      · refine ⟨?_, ?_, ?_⟩
        · simp [muxerRuns, muxerStartBody, initMuxer, hr]
        · simp [muxerRuns, muxerStartBody, initMuxer, hr]
        · intro h0r
          exact absurd hr (by omega)
      · refine ⟨?_, ?_, ?_⟩ <;> simp [muxerRuns, muxerStartBody, initMuxer, hr]

/-- Claim C4 (amended): across K ≥ 1 runs of the same muxer the header
is written exactly once (on the first run; later runs do not rewrite
it), and a failing header write makes the first run stop with an error
event and register no trailer hook.  The trailer close-hook, however,
is registered once per successful run, so teardown writes the trailer
exactly once only when the body ran once (K = 1); after K successful
runs it is written K times. -/
theorem muxer_header_trailer_amended (r : Int) (K : Nat) (hK : 1 ≤ K) :
    (muxerRuns r K).headerWrites = 1 ∧
    (0 ≤ r → (muxerRuns r K).trailerHooks = K) ∧
    (r < 0 → (muxerRuns r 1).errors = 1 ∧ (muxerRuns r 1).trailerHooks = 0) := by
  refine ⟨(muxerRuns_spec r K hK).2.1, (muxerRuns_spec r K hK).2.2, ?_⟩
  intro hr
  constructor <;> simp [muxerRuns, muxerStartBody, initMuxer, hr]

/-- Claim C4 (amended), witness at a successful header write and two
runs: one header write, two trailer hooks. -/
theorem muxer_header_trailer_amended_witness :
    (muxerRuns 0 2).headerWrites = 1 ∧ (muxerRuns 0 2).trailerHooks = 2 := by
  have h := muxer_header_trailer_amended 0 2 (by norm_num)
  exact ⟨h.1, h.2.1 (by norm_num)⟩

/-- Claim C5: `readFrame` on a negative native read return — end of
input with loop disabled stops without emitting an error; end of input
with loop enabled and a stored first-packet record seeks to that
record's stream index and dts with the backward flag and continues,
stopping (with an error) only when the seek fails; any other negative
return is emitted as an error and stops. -/
theorem demuxer_readFrame_eof_handling (pkt : DemuxPkt) (lfp : Option DemuxPkt)
    (ks : Bool) (rs : Option (DemuxPkt → DemuxPkt)) (sr : Int) (ret : Int) :
    ((readFrame AVERROR_EOF pkt false lfp ks rs sr).stop = true ∧
      (readFrame AVERROR_EOF pkt false lfp ks rs sr).errorsEmitted = 0) ∧
    (∀ fp : DemuxPkt,
      (readFrame AVERROR_EOF pkt true (some fp) ks rs sr).seek =
        some ⟨fp.streamIndex, fp.dts, AVSEEK_FLAG_BACKWARD⟩ ∧
      (0 ≤ sr → (readFrame AVERROR_EOF pkt true (some fp) ks rs sr).stop = false ∧
        (readFrame AVERROR_EOF pkt true (some fp) ks rs sr).errorsEmitted = 0) ∧
      (sr < 0 → (readFrame AVERROR_EOF pkt true (some fp) ks rs sr).stop = true ∧
        (readFrame AVERROR_EOF pkt true (some fp) ks rs sr).errorsEmitted = 1)) ∧
    (ret < 0 → ret ≠ AVERROR_EOF → ∀ loopB : Bool,
      (readFrame ret pkt loopB lfp ks rs sr).stop = true ∧
      (readFrame ret pkt loopB lfp ks rs sr).errorsEmitted = 1) := by
  refine ⟨⟨?_, ?_⟩, ?_, ?_⟩
  · simp [readFrame, AVERROR_EOF]
  · simp [readFrame, AVERROR_EOF]
  · intro fp
    refine ⟨?_, ?_, ?_⟩
    · by_cases hsr : sr < 0 <;> simp [readFrame, AVERROR_EOF, hsr]
    · intro h0
      have hsr : ¬ sr < 0 := by omega
      constructor <;> simp [readFrame, AVERROR_EOF, hsr]
    · intro hsr
      constructor <;> simp [readFrame, AVERROR_EOF, hsr]
  · intro hlt hne loopB
    constructor <;> simp [readFrame, hlt, hne]

/-- Claim C5, witness: end of input with loop off stops; with loop on
and first packet {stream 1, dts 42} the seek targets (1, 42, backward);
read return -22 emits one error. -/
theorem demuxer_readFrame_eof_handling_witness :
    (readFrame AVERROR_EOF ⟨0, 0, 0⟩ false none true none 0).stop = true ∧
    (readFrame AVERROR_EOF ⟨0, 0, 0⟩ true (some ⟨1, 42, 0⟩) true none 0).seek =
      some ⟨1, 42, AVSEEK_FLAG_BACKWARD⟩ ∧
    (readFrame (-22) ⟨0, 0, 0⟩ true none true none 0).errorsEmitted = 1 :=
  ⟨(demuxer_readFrame_eof_handling ⟨0, 0, 0⟩ none true none 0 (-22)).1.1,
   ((demuxer_readFrame_eof_handling ⟨0, 0, 0⟩ none true none 0 (-22)).2.1 ⟨1, 42, 0⟩).1,
   ((demuxer_readFrame_eof_handling ⟨0, 0, 0⟩ none true none 0 (-22)).2.2 (by norm_num)
     (by decide) true).2⟩

/-- Claim C10: end of input while loop is enabled but no first-packet
record is stored falls through every branch of `readFrame`: no stop, no
error, no seek, no dispatch, record still unset — so the `Demuxer.Start`
loop immediately retries the read, and with the context alive it keeps
spinning for any number of turns; only context cancellation exits. -/
theorem demuxer_eof_loop_spin (pkt : DemuxPkt) (ks : Bool)
    (rs : Option (DemuxPkt → DemuxPkt)) (sr : Int) :
    (readFrame AVERROR_EOF pkt true none ks rs sr).stop = false ∧
    (readFrame AVERROR_EOF pkt true none ks rs sr).errorsEmitted = 0 ∧
    (readFrame AVERROR_EOF pkt true none ks rs sr).seek = none ∧
    (readFrame AVERROR_EOF pkt true none ks rs sr).dispatched = none ∧
    (readFrame AVERROR_EOF pkt true none ks rs sr).loopFirstPkt = none ∧
    demuxerLoopIter (readFrame AVERROR_EOF pkt true none ks rs sr).stop false =
      LoopOutcome.looping ∧
    demuxerLoopIter (readFrame AVERROR_EOF pkt true none ks rs sr).stop true =
      LoopOutcome.stopped ∧
    (∀ n : Nat, stillLooping pkt ks rs sr n = true) := by
  have hv : readFrame AVERROR_EOF pkt true none ks rs sr =
      { stop := false, errorsEmitted := 0, seek := none, dispatched := none
        loopFirstPkt := none, poolGets := 1, poolPuts := 1 } := by
    simp [readFrame, AVERROR_EOF]
  refine ⟨by rw [hv], by rw [hv], by rw [hv], by rw [hv], by rw [hv],
    by rw [hv]; rfl, by rw [hv]; rfl, ?_⟩
  intro n
  induction n with
  | zero => rfl
  | succ m ih => simp [stillLooping, ih, hv]

/-- Claim C6: the queue thunk of `MuxerPktHandler` rescales the packet
timestamps from the payload descriptor's time base to the target
stream's time base and sets the stream index to the target stream's;
for source time base 1/1000, target 1/90000, source timestamps 1000 and
2000 rescale to 90000 and 180000. -/
theorem muxerPktHandler_rescale :
    (∀ (p : PktHandlerPayload) (tb : AVRational) (idx : Int),
      (pktHandlerPayloadRetrieve tb idx p).pkt.streamIndex = idx ∧
      (pktHandlerPayloadRetrieve tb idx p).pkt.pts =
        (avPacketRescaleTs p.pkt p.descTimeBase tb).pts ∧
      (pktHandlerPayloadRetrieve tb idx p).pkt.dts =
        (avPacketRescaleTs p.pkt p.descTimeBase tb).dts ∧
      (pktHandlerPayloadRetrieve tb idx p).pkt.duration =
        (avPacketRescaleTs p.pkt p.descTimeBase tb).duration) ∧
    (pktHandlerPayloadRetrieve ⟨1, 90000⟩ 3 ⟨⟨1000, 1000, 10, 0⟩, ⟨1, 1000⟩⟩).pkt =
      ⟨90000, 90000, 900, 3⟩ ∧
    (pktHandlerPayloadRetrieve ⟨1, 90000⟩ 3 ⟨⟨2000, 2000, 10, 0⟩, ⟨1, 1000⟩⟩).pkt =
      ⟨180000, 180000, 900, 3⟩ := by
  refine ⟨?_, by decide, by decide⟩
  intro p tb idx
  exact ⟨rfl, rfl, rfl, rfl⟩

/-- Claim C7: for an audio packet of 1024 samples at 48 kHz (stream time
base 1/48000) with skip-samples side data {start = 512, end = 0} the
duration used for pacing is 1024 − 512 = 512 samples, and the emulated
sleep is 10666667 ns ≈ 10.67 ms = (1024 − 512)/48000 s; non-audio
packets and audio packets without that side data use the packet
duration unchanged. -/
theorem demuxer_emulate_rate_skip :
    emulateRatePktDuration ⟨1024, some (512, 0)⟩
      ⟨CodecType.audio, 48000, ⟨1, 48000⟩⟩ = 512 ∧
    emulateRateSleepNs ⟨1024, some (512, 0)⟩ ⟨CodecType.audio, 48000, ⟨1, 48000⟩⟩
      ⟨1, 48000⟩ = 10666667 ∧
    (∀ (d : Int) (sd : Option (Nat × Nat)) (sr : Int) (tb : AVRational),
      emulateRatePktDuration ⟨d, sd⟩ ⟨CodecType.video, sr, tb⟩ = d) ∧
    (∀ (d : Int) (sd : Option (Nat × Nat)) (sr : Int) (tb : AVRational),
      emulateRatePktDuration ⟨d, sd⟩ ⟨CodecType.other, sr, tb⟩ = d) ∧
    (∀ (d : Int) (ctx : DemuxCtx), emulateRatePktDuration ⟨d, none⟩ ctx = d) := by
  refine ⟨by decide, by decide, fun d sd sr tb => rfl, fun d sd sr tb => rfl, ?_⟩
  intro d ctx
  obtain ⟨ct, sr, tb⟩ := ctx
  cases ct <;> rfl

theorem muxerConsume_go (acc : MuxerWriteLog) (items : List (Nat × Int)) :
    items.foldl muxerQueueItem acc =
      ⟨acc.written ++ (items.filter fun p => decide (0 ≤ p.2)).map Prod.fst,
       acc.errors + (items.filter fun p => decide (p.2 < 0)).length,
       acc.stopped⟩ := by
  induction items generalizing acc with
  | nil => simp
  | cons it t ih =>
    by_cases hneg : it.2 < 0
    · have h1 : ¬ (0 ≤ it.2) := not_le.mpr hneg
      simp [List.foldl_cons, muxerQueueItem, hneg, h1, ih, List.filter_cons,
        MuxerWriteLog.mk.injEq]
      omega
    · have h1 : 0 ≤ it.2 := not_lt.mp hneg
      simp [List.foldl_cons, muxerQueueItem, hneg, h1, ih, List.filter_cons,
        MuxerWriteLog.mk.injEq]

/-- Claim C8: a failing interleaved write inside the muxer's queue
consumer only emits an error and skips that packet — the consumer never
sets a stop, the packets with nonnegative write returns are all written
in order, and one error is counted per failing packet; concretely, with
writes [ok, fail, ok] packets 0 and 2 are written and one error is
emitted. -/
theorem muxer_write_error_continues (items : List (Nat × Int)) :
    (muxerConsume items).stopped = false ∧
    (muxerConsume items).written = (items.filter fun p => decide (0 ≤ p.2)).map Prod.fst ∧
    (muxerConsume items).errors = (items.filter fun p => decide (p.2 < 0)).length ∧
    muxerConsume [(0, 0), (1, -1), (2, 0)] = ⟨[0, 2], 1, false⟩ := by
  have h := muxerConsume_go ⟨[], 0, false⟩ items
  refine ⟨?_, ?_, ?_, by decide⟩ <;> simp [muxerConsume, h]

/-- Claim C9: `AddWorkflow` stores under the workflow's name with
last-write-wins on duplicate names, and `Workflow(name)` returns the
stored workflow for a registered name and the not-found error
otherwise; concretely, after adding w{name="a"} to the empty pool,
Get("a") returns w and Get("b") returns NotFound. -/
theorem workflowPool_add_get :
    (∀ (wp : String → Option Workflow) (w : Workflow),
      workflowGet (addWorkflow wp w) w.name = Except.ok w) ∧
    (∀ (wp : String → Option Workflow) (w : Workflow) (n : String),
      n ≠ w.name → workflowGet (addWorkflow wp w) n = workflowGet wp n) ∧
    (∀ (wp : String → Option Workflow) (w w' : Workflow) (n : String),
      w.name = w'.name →
      workflowGet (addWorkflow (addWorkflow wp w) w') n =
        workflowGet (addWorkflow wp w') n) ∧
    workflowGet (addWorkflow emptyWorkflowPool ⟨"a", 0⟩) "a" = Except.ok ⟨"a", 0⟩ ∧
    workflowGet (addWorkflow emptyWorkflowPool ⟨"a", 0⟩) "b" =
      Except.error PoolErr.workflowNotFound := by
  refine ⟨?_, ?_, ?_, by rfl, by rfl⟩
  · intro wp w
    simp [workflowGet, addWorkflow]
  · intro wp w n hne
    simp [workflowGet, addWorkflow, hne]
  · intro wp w w' n heq
    by_cases hn : n = w'.name
    · simp [workflowGet, addWorkflow, hn]
    · have hnw : n ≠ w.name := fun hc => hn (hc.trans heq)
      simp [workflowGet, addWorkflow, hn, hnw]

/-- Claim C9, witness: last-write-wins at name "a" and lookup of the
unregistered "b" falling through the added entry. -/
theorem workflowPool_add_get_witness :
    workflowGet (addWorkflow (addWorkflow emptyWorkflowPool ⟨"a", 0⟩) ⟨"a", 1⟩) "a" =
      Except.ok ⟨"a", 1⟩ ∧
    workflowGet (addWorkflow emptyWorkflowPool ⟨"a", 0⟩) "b" =
      workflowGet emptyWorkflowPool "b" :=
  ⟨workflowPool_add_get.1 (addWorkflow emptyWorkflowPool ⟨"a", 0⟩) ⟨"a", 1⟩,
   workflowPool_add_get.2.1 emptyWorkflowPool ⟨"a", 0⟩ "b" (by decide)⟩
